import Mathlib

/-!
Shallow embedding of the `agent` package (`state_manager.py`, `base_agent.py`).

Modelling conventions:
* Python values held in a `StateManager.state` dict are `Value`; the
  constructor `pyobj` stands for a Python object with no JSON
  representation (`json.dump` raises `TypeError` on it).
* `datetime.now().isoformat()` is modelled by a global natural-number
  clock threaded through every operation; each call to `now` returns the
  current clock and advances it, so timestamps are strictly increasing
  (ISO-8601 strings from a monotone wall clock compare the same way).
* Python dicts are association lists with unique keys; insertion keeps
  the position of an existing key, like a CPython dict.
* The state directory is an association list from relative file path to
  `FileData`.  `json.dump` with a non-serializable value first truncates
  the file and then fails partway through, leaving unparsable content:
  that is `FileData.malformed`.
* Exceptions are modelled with `Except PyErr`; mutating operations
  return the mutated store alongside the result, because a Python method
  that raises after mutating `self` leaves the mutation in place.
-/

namespace AgentSpec

/-- A Python value that can live in `StateManager.state`.  The first six
constructors are exactly the JSON-representable values; `pyobj` is an
arbitrary non-JSON-serializable Python object (identified by a tag). -/
inductive Value where
  | null : Value
  | bool (b : Bool) : Value
  | num (n : Nat) : Value
  | str (s : String) : Value
  | list (xs : List Value) : Value
  | dict (kvs : List (String × Value)) : Value
  | pyobj (tag : Nat) : Value
deriving Repr

mutual

/-- Whether `json.dump` can serialize this value (no `pyobj` inside). -/
def serializable : Value → Bool
  | .null => true
  | .bool _ => true
  | .num _ => true
  | .str _ => true
  | .pyobj _ => false
  | .list xs => serializableList xs
  | .dict kvs => serializableVals kvs

/-- All values of a list are serializable. -/
def serializableList : List Value → Bool
  | [] => true
  | v :: vs => serializable v && serializableList vs

/-- All values of a dict are serializable. -/
def serializableVals : List (String × Value) → Bool
  | [] => true
  | (_, v) :: kvs => serializable v && serializableVals kvs

end

/-- Python dict lookup (`d.get(k)` / `k in d`). -/
def getA {β : Type} : List (String × β) → String → Option β
  | [], _ => none
  | (k', v) :: rest, k => if k' = k then some v else getA rest k

/-- Python dict insertion (`d[k] = v`): overwrite in place, else append. -/
def setA {β : Type} : List (String × β) → String → β → List (String × β)
  | [], k, v => [(k, v)]
  | (k', v') :: rest, k, v =>
      if k' = k then (k', v) :: rest else (k', v') :: setA rest k v

/-- Python dict deletion (`del d[k]`). -/
def eraseA {β : Type} : List (String × β) → String → List (String × β)
  | [], _ => []
  | (k', v') :: rest, k =>
      if k' = k then rest else (k', v') :: eraseA rest k

/-- The exceptions the embedded code can raise.  `userError` carries the
Python type name and `str(e)` of an exception raised by user code. -/
inductive PyErr where
  | fileNotFound (msg : String) : PyErr
  | serializationError : PyErr
  | decodeError : PyErr
  | userError (tyName msg : String) : PyErr
deriving Repr, DecidableEq

/-- `str(e)` for an embedded exception. -/
def pyStr : PyErr → String
  | .fileNotFound msg => msg
  | .serializationError => "Object is not JSON serializable"
  | .decodeError => "Expecting value"
  | .userError _ msg => msg

/-- `type(e).__name__` for an embedded exception. -/
def pyTyName : PyErr → String
  | .fileNotFound _ => "FileNotFoundError"
  | .serializationError => "TypeError"
  | .decodeError => "JSONDecodeError"
  | .userError ty _ => ty

/-- The content of one file in the state directory: a parsed
`{"metadata": ..., "state": ...}` document written by `save`/`backup`,
or unparsable bytes left behind by a failed `json.dump`. -/
inductive FileData where
  | json (metadata : List (String × Value)) (state : List (String × Value)) : FileData
  | malformed : FileData
deriving Repr

/-- The in-memory fields of a `StateManager` (`state_manager.py`,
`__init__`): the autosave flag, the `state` dict and the `metadata`
dict. -/
structure StateManager where
  autosave : Bool
  state : List (String × Value)
  metadata : List (String × Value)
deriving Repr

/-- A `StateManager` together with its state directory and the wall
clock. -/
structure World where
  sm : StateManager
  fs : List (String × FileData)
  clock : Nat
deriving Repr

/-- Advance the wall clock (one `datetime.now()` call). -/
def tick (w : World) : World :=
  { w with clock := w.clock + 1 }

/-- `StateManager.__init__`: empty state, metadata stamped by two
separate `datetime.now()` calls, version `"1.0"`. -/
def initSM (autosaveFlag : Bool) (t : Nat) : StateManager :=
  { autosave := autosaveFlag
    state := []
    metadata := [("created_at", .num t), ("updated_at", .num (t + 1)),
                 ("version", .str "1.0")] }

/-- A fresh `StateManager` over an empty state directory, clock at 0. -/
def initWorld (autosaveFlag : Bool) : World :=
  { sm := initSM autosaveFlag 0, fs := [], clock := 2 }

/-- `save`'s file path: `state_dir / f"{filename}.json"` — the suffix is
appended unconditionally. -/
def savePathOf (filename : String) : String :=
  filename ++ ".json"

/-- Python `str.endswith`. -/
def endsWithStr (s suffix : String) : Bool :=
  suffix.data.isSuffixOf s.data

/-- `load`'s file path: the `.json` suffix is appended only when the
caller omitted it. -/
def loadPathOf (filename : String) : String :=
  if endsWithStr filename ".json" then filename else filename ++ ".json"

/-- The timestamp-derived default filename of `save`. -/
def autoName (t : Nat) : String :=
  "state_" ++ toString t

/-- The body of `StateManager.save` once the filename is known: dump
`{"metadata": self.metadata, "state": self.state}` to
`f"{filename}.json"`.  When a value is not serializable, `open(..., 'w')`
has already truncated the file and `json.dump` fails partway through,
leaving malformed content and raising `TypeError`. -/
def saveAs (w : World) (filename : String) : World × Except PyErr String :=
  let path := savePathOf filename
  if serializableVals w.sm.metadata && serializableVals w.sm.state then
    ({ w with fs := setA w.fs path (.json w.sm.metadata w.sm.state) }, .ok path)
  else
    ({ w with fs := setA w.fs path .malformed }, .error .serializationError)

/-- `StateManager.save`: a missing filename defaults to a
timestamp-derived name (the only `datetime.now()` call in `save`). -/
def save (w : World) (filename : Option String) : World × Except PyErr String :=
  match filename with
  | none => saveAs (tick w) (autoName w.clock)
  | some f => saveAs w f

/-- `StateManager.load`: resolve the path, fail with `FileNotFoundError`
when absent, fail with a JSON decode error on malformed content, else
replace `state` and `metadata` wholesale from the document and re-stamp
`metadata["updated_at"]` with the current time. -/
def load (w : World) (filename : String) : World × Except PyErr Unit :=
  match getA w.fs (loadPathOf filename) with
  | none =>
      (w, .error (.fileNotFound ("State file not found: " ++ loadPathOf filename)))
  | some .malformed => (w, .error .decodeError)
  | some (.json meta st) =>
      ({ tick w with
          sm := { w.sm with
                    state := st
                    metadata := setA meta "updated_at" (.num w.clock) } },
       .ok ())

/-- Replace the in-memory `state` dict (one `self.state` assignment). -/
def withState (w : World) (st : List (String × Value)) : World :=
  { w with sm := { w.sm with state := st } }

/-- `self.metadata["updated_at"] = datetime.now().isoformat()`. -/
def stampUpdated (w : World) : World :=
  { tick w with
      sm := { w.sm with metadata := setA w.sm.metadata "updated_at" (.num w.clock) } }

/-- The `if self.autosave: self.save()` tail shared by the mutators. -/
def autosaveTail (w : World) : World × Except PyErr Unit :=
  if w.sm.autosave then
    ((save w none).1,
     match (save w none).2 with
     | .ok _ => .ok ()
     | .error e => .error e)
  else
    (w, .ok ())

/-- `StateManager.set`: put the value into the in-memory dict, refresh
`updated_at`, then autosave when enabled (the only step that can
fail). -/
def set (w : World) (k : String) (v : Value) : World × Except PyErr Unit :=
  autosaveTail (stampUpdated (withState w (setA w.sm.state k v)))

/-- `StateManager.get`: read-only lookup with default. -/
def get (w : World) (k : String) (default : Value) : Value :=
  (getA w.sm.state k).getD default

/-- `StateManager.delete`: remove the key when present (refreshing
`updated_at` and autosaving), returning whether it existed; a missing
key is a pure `False`. -/
def delete (w : World) (k : String) : World × Except PyErr Bool :=
  if (getA w.sm.state k).isSome then
    ((autosaveTail (stampUpdated (withState w (eraseA w.sm.state k)))).1,
     match (autosaveTail (stampUpdated (withState w (eraseA w.sm.state k)))).2 with
     | .ok _ => .ok true
     | .error e => .error e)
  else
    (w, .ok false)

/-- `StateManager.clear`: empty the state dict, refresh `updated_at`,
autosave when enabled. -/
def clear (w : World) : World × Except PyErr Unit :=
  autosaveTail (stampUpdated (withState w []))

/-- The timestamp-derived file path of `backup`. -/
def backupName (t : Nat) : String :=
  "backups/backup_" ++ toString t ++ ".json"

/-- `StateManager.backup` with the default backup directory: write the
current document to `backups/backup_<timestamp>.json`. -/
def backup (w : World) : World × Except PyErr String :=
  if serializableVals w.sm.metadata && serializableVals w.sm.state then
    ({ tick w with fs := setA w.fs (backupName w.clock) (.json w.sm.metadata w.sm.state) },
     .ok (backupName w.clock))
  else
    ({ tick w with fs := setA w.fs (backupName w.clock) .malformed },
     .error .serializationError)

/-- The Python types a validation schema can mention. -/
inductive PyType where
  | str : PyType
  | int : PyType
  | bool : PyType
  | list : PyType
  | dict : PyType
  | noneTy : PyType
deriving Repr, DecidableEq

/-- Python `isinstance` on embedded values (note `bool` is a subclass of
`int` in Python). -/
def isinst : Value → PyType → Bool
  | .str _, .str => true
  | .num _, .int => true
  | .bool _, .int => true
  | .bool _, .bool => true
  | .list _, .list => true
  | .dict _, .dict => true
  | .null, .noneTy => true
  | _, _ => false

/-- `StateManager.validate_state`: every schema key that is present in
`state` must have a value of the expected type; absent keys are
skipped. -/
def validateState (st : List (String × Value)) (schema : List (String × PyType)) : Bool :=
  schema.all fun kt =>
    match getA st kt.1 with
    | none => true
    | some v => isinst v kt.2

/-- The in-memory fields of a `BaseAgent` that matter to the lifecycle:
the `is_running` flag and the owned `StateManager` (with its directory
and the clock). -/
structure AgentState where
  is_running : Bool
  world : World
deriving Repr

/-- The default timestamp hooks `on_start` / `on_success` / `on_stop`:
`self.state_manager.set(key, datetime.now().isoformat())` — one
`datetime.now()` call for the value, then `set` (which stamps
`updated_at` and may autosave, hence may raise). -/
def hookSet (w : World) (key : String) : World × Except PyErr Unit :=
  set (tick w) key (.num w.clock)

/-- The default `on_error` hook: store a structured record built from
the caught exception. -/
def onError (w : World) (e : PyErr) : World × Except PyErr Unit :=
  set (tick w) "last_error"
    (.dict [("timestamp", .num w.clock), ("error", .str (pyStr e)),
            ("type", .str (pyTyName e))])

/-- The `except` clause of `BaseAgent.run`: call `on_error(e)` and then
re-raise `e`; an exception raised by `on_error` itself replaces `e`. -/
def handleErr (w : World) (e : PyErr) : World × Except PyErr Value :=
  match onError w e with
  | (w', .ok _) => (w', .error e)
  | (w', .error e') => (w', .error e')

/-- The `finally` block of `BaseAgent.run` applied to the outcome of the
`try`/`except` part: run `on_stop` and only then execute
`self.is_running = False` — an exception escaping `on_stop` skips that
assignment (leaving the `True` written at entry) and replaces the
pending result. -/
def runFinally (tryOut : World × Except PyErr Value) : AgentState × Except PyErr Value :=
  match hookSet tryOut.1 "last_stop" with
  | (w₄, .error e) => ({ is_running := true, world := w₄ }, .error e)
  | (w₄, .ok _) => ({ is_running := false, world := w₄ }, tryOut.2)

/-- `BaseAgent.run` with the default hooks and an arbitrary concrete
`process` implementation (a subclass method: it may read and mutate the
agent's own `StateManager`, so it is modelled as a `World` transformer
that can also raise).  `self.is_running = True` runs first; the `try`
block covers `on_start`, `process` and `on_success`; the `except`
clause runs `on_error` and re-raises; the `finally` block is
`runFinally`. -/
def runAgent (process : World → World × Except PyErr Value) (ag : AgentState) :
    AgentState × Except PyErr Value :=
  match hookSet ag.world "last_start" with
  | (w₁, .error e) => runFinally (handleErr w₁ e)
  | (w₁, .ok _) =>
      match process w₁ with
      | (w₂, .error e) => runFinally (handleErr w₂ e)
      | (w₂, .ok result) =>
          match hookSet w₂ "last_success" with
          | (w₃, .error e) => runFinally (handleErr w₃ e)
          | (w₃, .ok _) => runFinally (w₃, .ok result)

/-- One public `StateManager` call, for reasoning about arbitrary call
sequences.  `get`, `list_states`, `validate_state` and `get_metadata`
are read-only (the last returns a defensive copy), so they are
represented by `query`. -/
inductive Op where
  | set (k : String) (v : Value) : Op
  | delete (k : String) : Op
  | clear : Op
  | save (name : Option String) : Op
  | load (name : String) : Op
  | backup : Op
  | query : Op

/-- The effect of one call on the store, directory and clock (results
and exceptions are discarded; a raising call still keeps its partial
mutations, as in Python). -/
def stepOp (w : World) : Op → World
  | .set k v => (set w k v).1
  | .delete k => (delete w k).1
  | .clear => (clear w).1
  | .save n => (save w n).1
  | .load n => (load w n).1
  | .backup => (backup w).1
  | .query => w

/-- Run a sequence of public calls. -/
def runOps (w : World) (ops : List Op) : World :=
  ops.foldl stepOp w

/-! Section: Association-list lemmas -/

theorem getA_setA_self {β : Type} (l : List (String × β)) (k : String) (v : β) :
    getA (setA l k v) k = some v := by
  induction l with
  | nil => simp [getA, setA]
  | cons hd tl ih =>
      obtain ⟨k', v'⟩ := hd
      by_cases h : k' = k
      · simp [setA, getA, h]
      · simp [setA, getA, h, ih]

theorem getA_setA_ne {β : Type} (l : List (String × β)) (k k' : String) (v : β)
    (h : k ≠ k') : getA (setA l k v) k' = getA l k' := by
  induction l with
  | nil => simp [getA, setA, h]
  | cons hd tl ih =>
      obtain ⟨k₀, v₀⟩ := hd
      by_cases h₀ : k₀ = k
      · subst h₀
        simp [setA, getA, h]
      · simp [setA, getA, h₀, ih]

theorem mem_setA {β : Type} (l : List (String × β)) (k : String) (v : β)
    (p : String × β) (hp : p ∈ setA l k v) : p = (k, v) ∨ p ∈ l := by
  induction l with
  | nil =>
      simp only [setA, List.mem_singleton] at hp
      exact Or.inl hp
  | cons hd tl ih =>
      obtain ⟨k₀, v₀⟩ := hd
      simp only [setA] at hp
      split at hp
      · rename_i heq
        rcases List.mem_cons.mp hp with h1 | h1
        · exact Or.inl (by rw [h1, heq])
        · exact Or.inr (List.mem_cons_of_mem _ h1)
      · rcases List.mem_cons.mp hp with h1 | h1
        · exact Or.inr (List.mem_cons.mpr (Or.inl h1))
        · rcases ih h1 with h2 | h2
          · exact Or.inl h2
          · exact Or.inr (List.mem_cons_of_mem _ h2)

theorem getA_mem {β : Type} (l : List (String × β)) (k : String) (v : β)
    (h : getA l k = some v) : (k, v) ∈ l := by
  induction l with
  | nil => simp [getA] at h
  | cons hd tl ih =>
      obtain ⟨k₀, v₀⟩ := hd
      simp only [getA] at h
      split at h
      · rename_i heq
        obtain rfl : v₀ = v := Option.some.inj h
        exact heq ▸ List.mem_cons_self _ _
      · exact List.mem_cons_of_mem _ (ih h)

/-! Section: Metadata invariants

Run from construction over an initially empty state directory, so every
document the store can `load` is one it previously saved (or a corrupt
leftover of a failed save). -/

/-- A metadata dict whose `created_at` is the construction stamp `c0`
and whose `updated_at` is a stamp between `c0` and the clock. -/
def metaOk (c0 clockNow : Nat) (meta : List (String × Value)) : Prop :=
  getA meta "created_at" = some (.num c0) ∧
  ∃ u, getA meta "updated_at" = some (.num u) ∧ c0 ≤ u ∧ u < clockNow

/-- Every parsable document in the directory carries `metaOk`
metadata. -/
def fileOk (c0 clockNow : Nat) : FileData → Prop
  | .json meta _ => metaOk c0 clockNow meta
  | .malformed => True

/-- The store invariant: the construction stamp is in the past, the
in-memory metadata is well-formed, and so is every file on disk. -/
def Inv (c0 : Nat) (w : World) : Prop :=
  c0 < w.clock ∧ metaOk c0 w.clock w.sm.metadata ∧
    ∀ p fd, (p, fd) ∈ w.fs → fileOk c0 w.clock fd

theorem metaOk_mono {c0 c c' : Nat} {meta : List (String × Value)}
    (hcc : c ≤ c') (h : metaOk c0 c meta) : metaOk c0 c' meta := by
  obtain ⟨hcr, u, hu, h1, h2⟩ := h
  exact ⟨hcr, u, hu, h1, lt_of_lt_of_le h2 hcc⟩

theorem fileOk_mono {c0 c c' : Nat} {fd : FileData}
    (hcc : c ≤ c') (h : fileOk c0 c fd) : fileOk c0 c' fd := by
  cases fd with
  | json meta st => exact metaOk_mono hcc h
  | malformed => trivial

theorem metaOk_stamp {c0 t : Nat} {meta : List (String × Value)}
    (hcr : getA meta "created_at" = some (.num c0)) (hct : c0 ≤ t) :
    metaOk c0 (t + 1) (setA meta "updated_at" (.num t)) := by
  refine ⟨?_, t, getA_setA_self _ _ _, hct, Nat.lt_succ_self t⟩
  rw [getA_setA_ne _ _ _ _ (by decide)]
  exact hcr

theorem inv_tick {c0 : Nat} {w : World} (h : Inv c0 w) : Inv c0 (tick w) := by
  obtain ⟨h1, h2, h3⟩ := h
  exact ⟨Nat.lt_succ_of_lt h1, metaOk_mono (Nat.le_succ _) h2,
    fun p fd hp => fileOk_mono (Nat.le_succ _) (h3 p fd hp)⟩

theorem inv_withState {c0 : Nat} {w : World} (st : List (String × Value))
    (h : Inv c0 w) : Inv c0 (withState w st) := h

theorem inv_stamp {c0 : Nat} {w : World} (h : Inv c0 w) :
    Inv c0 (stampUpdated w) := by
  obtain ⟨h1, h2, h3⟩ := h
  exact ⟨Nat.lt_succ_of_lt h1, metaOk_stamp h2.1 (Nat.le_of_lt h1),
    fun p fd hp => fileOk_mono (Nat.le_succ _) (h3 p fd hp)⟩

theorem inv_saveAs {c0 : Nat} {w : World} (f : String) (h : Inv c0 w) :
    Inv c0 (saveAs w f).1 := by
  obtain ⟨h1, h2, h3⟩ := h
  unfold saveAs
  split
  · refine ⟨h1, h2, fun p fd hp => ?_⟩
    rcases mem_setA _ _ _ _ hp with heq | hmem
    · obtain ⟨-, rfl⟩ := Prod.mk.injEq .. ▸ heq
      exact h2
    · exact h3 p fd hmem
  · refine ⟨h1, h2, fun p fd hp => ?_⟩
    rcases mem_setA _ _ _ _ hp with heq | hmem
    · obtain ⟨-, rfl⟩ := Prod.mk.injEq .. ▸ heq
      trivial
    · exact h3 p fd hmem

theorem inv_save {c0 : Nat} {w : World} (n : Option String) (h : Inv c0 w) :
    Inv c0 (save w n).1 := by
  cases n with
  | none => exact inv_saveAs _ (inv_tick h)
  | some f => exact inv_saveAs _ h

theorem inv_autosaveTail {c0 : Nat} {w : World} (h : Inv c0 w) :
    Inv c0 (autosaveTail w).1 := by
  unfold autosaveTail
  split
  · exact inv_save none h
  · exact h

theorem inv_set {c0 : Nat} {w : World} (k : String) (v : Value) (h : Inv c0 w) :
    Inv c0 (set w k v).1 :=
  inv_autosaveTail (inv_stamp (inv_withState _ h))

theorem inv_delete {c0 : Nat} {w : World} (k : String) (h : Inv c0 w) :
    Inv c0 (delete w k).1 := by
  unfold delete
  split
  · exact inv_autosaveTail (inv_stamp (inv_withState _ h))
  · exact h

theorem inv_clear {c0 : Nat} {w : World} (h : Inv c0 w) :
    Inv c0 (clear w).1 :=
  inv_autosaveTail (inv_stamp (inv_withState _ h))

theorem inv_load {c0 : Nat} {w : World} (n : String) (h : Inv c0 w) :
    Inv c0 (load w n).1 := by
  obtain ⟨h1, h2, h3⟩ := h
  unfold load
  split
  · exact ⟨h1, h2, h3⟩
  · exact ⟨h1, h2, h3⟩
  · rename_i meta st hget
    have hfile := h3 _ _ (getA_mem _ _ _ hget)
    exact ⟨Nat.lt_succ_of_lt h1, metaOk_stamp hfile.1 (Nat.le_of_lt h1),
      fun p fd hp => fileOk_mono (Nat.le_succ _) (h3 p fd hp)⟩

theorem inv_backup {c0 : Nat} {w : World} (h : Inv c0 w) :
    Inv c0 (backup w).1 := by
  obtain ⟨h1, h2, h3⟩ := h
  have h1' : c0 < w.clock + 1 := Nat.lt_succ_of_lt h1
  have h2' : metaOk c0 (w.clock + 1) w.sm.metadata := metaOk_mono (Nat.le_succ _) h2
  unfold backup
  split
  · refine ⟨h1', h2', fun p fd hp => ?_⟩
    rcases mem_setA _ _ _ _ hp with heq | hmem
    · obtain ⟨-, rfl⟩ := Prod.mk.injEq .. ▸ heq
      exact h2'
    · exact fileOk_mono (Nat.le_succ _) (h3 p fd hmem)
  · refine ⟨h1', h2', fun p fd hp => ?_⟩
    rcases mem_setA _ _ _ _ hp with heq | hmem
    · obtain ⟨-, rfl⟩ := Prod.mk.injEq .. ▸ heq
      trivial
    · exact fileOk_mono (Nat.le_succ _) (h3 p fd hmem)

theorem inv_stepOp {c0 : Nat} {w : World} (op : Op) (h : Inv c0 w) :
    Inv c0 (stepOp w op) := by
  cases op with
  | set k v => exact inv_set k v h
  | delete k => exact inv_delete k h
  | clear => exact inv_clear h
  | save n => exact inv_save n h
  | load n => exact inv_load n h
  | backup => exact inv_backup h
  | query => exact h

theorem inv_runOps {c0 : Nat} {w : World} (ops : List Op) (h : Inv c0 w) :
    Inv c0 (runOps w ops) := by
  induction ops generalizing w with
  | nil => exact h
  | cons op rest ih => exact ih (inv_stepOp op h)

theorem inv_initWorld (autosaveFlag : Bool) : Inv 0 (initWorld autosaveFlag) := by
  refine ⟨?_, ⟨?_, 1, ?_, Nat.zero_le _, ?_⟩, ?_⟩
  · show (0 : Nat) < 2
    decide
  · rfl
  · rfl
  · show (1 : Nat) < 2
    decide
  · intro p fd hp
    simp [initWorld] at hp

/-! Section: Behavioural lemmas about the store operations -/

/-- An association list that actually represents a Python dict: no
duplicate keys. -/
def DictRep {β : Type} (l : List (String × β)) : Prop :=
  (l.map Prod.fst).Nodup

theorem getA_of_not_mem_keys {β : Type} {l : List (String × β)} {k : String}
    (h : k ∉ l.map Prod.fst) : getA l k = none := by
  induction l with
  | nil => rfl
  | cons hd tl ih =>
      obtain ⟨k₀, v₀⟩ := hd
      simp only [List.map_cons, List.mem_cons] at h
      push_neg at h
      simp only [getA]
      rw [if_neg (fun hk => h.1 hk.symm)]
      exact ih h.2

theorem getA_eraseA_self {β : Type} {l : List (String × β)} (k : String)
    (hnd : DictRep l) : getA (eraseA l k) k = none := by
  induction l with
  | nil => rfl
  | cons hd tl ih =>
      obtain ⟨k₀, v₀⟩ := hd
      obtain ⟨hk₀, htl⟩ := List.nodup_cons.mp hnd
      by_cases h₀ : k₀ = k
      · subst h₀
        simp only [eraseA, if_pos rfl]
        exact getA_of_not_mem_keys hk₀
      · simp only [eraseA, if_neg h₀, getA]
        exact ih htl

theorem saveAs_sm (w : World) (f : String) : ((saveAs w f).1).sm = w.sm := by
  unfold saveAs
  split <;> rfl

theorem save_sm (w : World) (n : Option String) : ((save w n).1).sm = w.sm := by
  cases n with
  | none =>
      show ((saveAs (tick w) _).1).sm = w.sm
      rw [saveAs_sm]
      rfl
  | some f => exact saveAs_sm w f

theorem save_err {w : World} {n : Option String} {e : PyErr}
    (h : (save w n).2 = .error e) : e = .serializationError := by
  cases n with
  | none =>
      have : (saveAs (tick w) (autoName w.clock)).2 = .error e := h
      unfold saveAs at this
      split at this
      · exact absurd this (by simp)
      · exact (Except.error.inj this).symm
  | some f =>
      have : (saveAs w f).2 = .error e := h
      unfold saveAs at this
      split at this
      · exact absurd this (by simp)
      · exact (Except.error.inj this).symm

theorem autosaveTail_sm (w : World) : ((autosaveTail w).1).sm = w.sm := by
  unfold autosaveTail
  split
  · exact save_sm w none
  · rfl

theorem autosaveTail_snd (w : World) :
    (autosaveTail w).2 = .ok () ∨
      ((autosaveTail w).2 = .error .serializationError ∧ w.sm.autosave = true) := by
  unfold autosaveTail
  split
  · rename_i hauto
    cases hsv : (save w none).2 with
    | ok p => simp [hsv]
    | error e =>
        right
        obtain rfl := save_err hsv
        simp [hsv, hauto]
  · exact Or.inl rfl

theorem autosaveTail_noAutosave (w : World) (ha : w.sm.autosave = false) :
    autosaveTail w = (w, .ok ()) := by
  unfold autosaveTail
  rw [show w.sm.autosave = false from ha]
  simp

theorem set_fst_state (w : World) (k : String) (v : Value) :
    ((set w k v).1).sm.state = setA w.sm.state k v := by
  show ((autosaveTail _).1).sm.state = _
  rw [autosaveTail_sm]
  rfl

theorem set_fst_autosave (w : World) (k : String) (v : Value) :
    ((set w k v).1).sm.autosave = w.sm.autosave := by
  show ((autosaveTail _).1).sm.autosave = _
  rw [autosaveTail_sm]
  rfl

theorem set_fst_updated (w : World) (k : String) (v : Value) :
    getA ((set w k v).1).sm.metadata "updated_at" = some (.num w.clock) := by
  show getA ((autosaveTail _).1).sm.metadata _ = _
  rw [autosaveTail_sm]
  exact getA_setA_self _ _ _

theorem set_noAutosave (w : World) (k : String) (v : Value)
    (ha : w.sm.autosave = false) :
    set w k v = (stampUpdated (withState w (setA w.sm.state k v)), .ok ()) := by
  unfold set
  exact autosaveTail_noAutosave _ ha

theorem set_snd_cases (w : World) (k : String) (v : Value) :
    (set w k v).2 = .ok () ∨
      ((set w k v).2 = .error .serializationError ∧ w.sm.autosave = true) := by
  unfold set
  exact autosaveTail_snd _

/-! Section: Lemmas about the default lifecycle hooks -/

theorem hookSet_state (w : World) (key : String) :
    getA ((hookSet w key).1).sm.state key = some (.num w.clock) := by
  show getA ((set (tick w) key (.num w.clock)).1).sm.state key = _
  rw [set_fst_state]
  exact getA_setA_self _ _ _

theorem hookSet_state_ne (w : World) (key k' : String) (h : key ≠ k') :
    getA ((hookSet w key).1).sm.state k' = getA w.sm.state k' := by
  show getA ((set (tick w) key (.num w.clock)).1).sm.state k' = _
  rw [set_fst_state, getA_setA_ne _ _ _ _ h]
  rfl

theorem hookSet_autosave (w : World) (key : String) :
    ((hookSet w key).1).sm.autosave = w.sm.autosave := by
  show ((set (tick w) key (.num w.clock)).1).sm.autosave = _
  rw [set_fst_autosave]
  rfl

theorem hookSet_ok (w : World) (key : String) (ha : w.sm.autosave = false) :
    (hookSet w key).2 = .ok () := by
  show (set (tick w) key (.num w.clock)).2 = _
  rw [set_noAutosave (tick w) key (.num w.clock) ha]

theorem onError_state (w : World) (e : PyErr) :
    getA ((onError w e).1).sm.state "last_error"
      = some (.dict [("timestamp", .num w.clock), ("error", .str (pyStr e)),
                     ("type", .str (pyTyName e))]) := by
  show getA ((set (tick w) "last_error" _).1).sm.state "last_error" = _
  rw [set_fst_state]
  exact getA_setA_self _ _ _

theorem onError_autosave (w : World) (e : PyErr) :
    ((onError w e).1).sm.autosave = w.sm.autosave := by
  show ((set (tick w) "last_error" _).1).sm.autosave = _
  rw [set_fst_autosave]
  rfl

theorem onError_ok (w : World) (e : PyErr) (ha : w.sm.autosave = false) :
    (onError w e).2 = .ok () := by
  show (set (tick w) "last_error"
    (.dict [("timestamp", .num w.clock), ("error", .str (pyStr e)),
            ("type", .str (pyTyName e))])).2 = _
  rw [set_noAutosave (tick w) "last_error"
    (.dict [("timestamp", .num w.clock), ("error", .str (pyStr e)),
            ("type", .str (pyTyName e))]) ha]

theorem handleErr_noAutosave (w : World) (e : PyErr) (ha : w.sm.autosave = false) :
    handleErr w e = ((onError w e).1, .error e) := by
  have h2 : (onError w e).2 = .ok () := onError_ok w e ha
  unfold handleErr
  rcases hoe : onError w e with ⟨w', r⟩
  rw [hoe] at h2
  simp only at h2
  subst h2
  rfl

theorem runFinally_noAutosave (tryOut : World × Except PyErr Value)
    (ha : tryOut.1.sm.autosave = false) :
    runFinally tryOut = ({ is_running := false, world := (hookSet tryOut.1 "last_stop").1 },
                         tryOut.2) := by
  have h2 : (hookSet tryOut.1 "last_stop").2 = .ok () := hookSet_ok _ _ ha
  unfold runFinally
  rcases hhs : hookSet tryOut.1 "last_stop" with ⟨w', r⟩
  rw [hhs] at h2
  simp only at h2
  subst h2
  rfl

theorem saveAs_ok (w : World) (f : String)
    (h : (serializableVals w.sm.metadata && serializableVals w.sm.state) = true) :
    saveAs w f = ({ w with fs := setA w.fs (savePathOf f) (.json w.sm.metadata w.sm.state) },
                  .ok (savePathOf f)) := by
  unfold saveAs
  rw [if_pos h]

theorem load_found (w : World) (n : String) (meta st : List (String × Value))
    (h : getA w.fs (loadPathOf n) = some (.json meta st)) :
    load w n = ({ tick w with
                    sm := { w.sm with
                              state := st
                              metadata := setA meta "updated_at" (.num w.clock) } },
                .ok ()) := by
  unfold load
  rw [h]

/-! Section: Hook-safety — the condition under which a mutator's
autosave step cannot fail: autosave disabled, or the whole in-memory
document JSON-serializable.  The default lifecycle hooks only write
serializable values (timestamps and string records), so hook-safety is
preserved across a `run` as long as `process` preserves it. -/

/-- A world on which `set` (and hence every default hook) cannot raise:
autosave is off, or the metadata and state dicts are entirely
JSON-serializable. -/
def HookSafe (w : World) : Prop :=
  w.sm.autosave = false ∨
    (serializableVals w.sm.metadata = true ∧ serializableVals w.sm.state = true)

theorem hookSafe_of_sm_eq {v w : World} (h : v.sm = w.sm) (hw : HookSafe w) :
    HookSafe v := by
  unfold HookSafe
  rw [h]
  exact hw

theorem serializable_setA (l : List (String × Value)) (k : String) (v : Value)
    (hl : serializableVals l = true) (hv : serializable v = true) :
    serializableVals (setA l k v) = true := by
  induction l with
  | nil => simp [setA, serializableVals, hv]
  | cons hd tl ih =>
      obtain ⟨k₀, v₀⟩ := hd
      rw [serializableVals, Bool.and_eq_true] at hl
      by_cases h₀ : k₀ = k
      · simp [setA, h₀, serializableVals, hv, hl.2]
      · simp [setA, h₀, serializableVals, hl.1, ih hl.2]

theorem autosaveTail_snd_ok (w : World)
    (h : (serializableVals w.sm.metadata && serializableVals w.sm.state) = true) :
    (autosaveTail w).2 = .ok () := by
  unfold autosaveTail
  split
  · have hs : (save w none).2 = .ok (savePathOf (autoName w.clock)) := by
      show (saveAs (tick w) (autoName w.clock)).2 = _
      rw [saveAs_ok (tick w) (autoName w.clock) h]
    rw [hs]
  · rfl

theorem set_safe (w : World) (k : String) (v : Value) (hw : HookSafe w)
    (hv : serializable v = true) :
    (set w k v).2 = .ok () ∧ HookSafe ((set w k v).1) := by
  have hsm : ((set w k v).1).sm = (stampUpdated (withState w (setA w.sm.state k v))).sm := by
    show ((autosaveTail _).1).sm = _
    exact autosaveTail_sm _
  have hsafe₂ : HookSafe (stampUpdated (withState w (setA w.sm.state k v))) := by
    rcases hw with ha | ⟨hm, hs⟩
    · exact Or.inl ha
    · refine Or.inr ⟨?_, ?_⟩
      · show serializableVals (setA w.sm.metadata "updated_at" (.num w.clock)) = true
        exact serializable_setA _ _ _ hm rfl
      · show serializableVals (setA w.sm.state k v) = true
        exact serializable_setA _ _ _ hs hv
  refine ⟨?_, hookSafe_of_sm_eq hsm hsafe₂⟩
  show (autosaveTail (stampUpdated (withState w (setA w.sm.state k v)))).2 = .ok ()
  rcases hw with ha | ⟨hm, hs⟩
  · rw [autosaveTail_noAutosave (stampUpdated (withState w (setA w.sm.state k v))) ha]
  · refine autosaveTail_snd_ok _ ?_
    show (serializableVals (setA w.sm.metadata "updated_at" (Value.num w.clock))
          && serializableVals (setA w.sm.state k v)) = true
    rw [serializable_setA w.sm.metadata "updated_at" (Value.num w.clock) hm rfl,
      serializable_setA w.sm.state k v hs hv]
    rfl

theorem hookSet_safe (w : World) (key : String) (hw : HookSafe w) :
    (hookSet w key).2 = .ok () ∧ HookSafe ((hookSet w key).1) := by
  show (set (tick w) key (.num w.clock)).2 = .ok ()
    ∧ HookSafe ((set (tick w) key (.num w.clock)).1)
  exact set_safe (tick w) key (.num w.clock) hw rfl

theorem onError_safe (w : World) (e : PyErr) (hw : HookSafe w) :
    (onError w e).2 = .ok () ∧ HookSafe ((onError w e).1) := by
  show (set (tick w) "last_error"
          (.dict [("timestamp", .num w.clock), ("error", .str (pyStr e)),
                  ("type", .str (pyTyName e))])).2 = .ok ()
    ∧ HookSafe ((set (tick w) "last_error"
          (.dict [("timestamp", .num w.clock), ("error", .str (pyStr e)),
                  ("type", .str (pyTyName e))])).1)
  exact set_safe (tick w) "last_error" _ hw rfl

theorem handleErr_safe (w : World) (e : PyErr) (hw : HookSafe w) :
    handleErr w e = ((onError w e).1, .error e) := by
  have h2 : (onError w e).2 = .ok () := (onError_safe w e hw).1
  unfold handleErr
  rcases hoe : onError w e with ⟨w', r⟩
  rw [hoe] at h2
  simp only at h2
  subst h2
  rfl

theorem runFinally_safe (tryOut : World × Except PyErr Value)
    (hw : HookSafe tryOut.1) :
    runFinally tryOut = ({ is_running := false,
                           world := (hookSet tryOut.1 "last_stop").1 },
                         tryOut.2) := by
  have h2 : (hookSet tryOut.1 "last_stop").2 = .ok () :=
    (hookSet_safe tryOut.1 "last_stop" hw).1
  unfold runFinally
  rcases hhs : hookSet tryOut.1 "last_stop" with ⟨w', r⟩
  rw [hhs] at h2
  simp only at h2
  subst h2
  rfl

theorem runFinally_last_stop (tryOut : World × Except PyErr Value) :
    ∃ t, getA (((runFinally tryOut).1).world).sm.state "last_stop"
      = some (Value.num t) := by
  have hstate := hookSet_state tryOut.1 "last_stop"
  unfold runFinally
  rcases hhs : hookSet tryOut.1 "last_stop" with ⟨w₄, r⟩
  rw [hhs] at hstate
  simp only at hstate
  cases r with
  | ok u => exact ⟨tryOut.1.clock, hstate⟩
  | error e => exact ⟨tryOut.1.clock, hstate⟩

/-! Section: Claim theorems -/

theorem append_json_ne (n : String) : n ++ ".json" ≠ n := by
  intro h
  have hlen := congrArg String.length h
  rw [String.length_append] at hlen
  have h5 : (".json" : String).length = 5 := rfl
  rw [h5] at hlen
  omega

/-- C7 (amended): `save` appends the `.json` suffix unconditionally
(its contract takes a name without extension), while `load` appends it
only when missing; hence `save(n)` and `load(n)` resolve to the same
file exactly when `n` does not already end in `.json`. -/
theorem save_load_path_agreement (n : String) :
    (endsWithStr n ".json" = false →
       savePathOf n = n ++ ".json" ∧ loadPathOf n = n ++ ".json") ∧
    (endsWithStr n ".json" = true → loadPathOf n = n) ∧
    (savePathOf n = loadPathOf n ↔ endsWithStr n ".json" = false) := by
  refine ⟨fun h => ⟨rfl, by simp [loadPathOf, h]⟩, fun h => by simp [loadPathOf, h], ?_⟩
  cases hb : endsWithStr n ".json" with
  | false => simp [savePathOf, loadPathOf, hb]
  | true =>
      simp only [savePathOf, loadPathOf, hb, if_pos]
      constructor
      · intro h
        exact absurd h (append_json_ne n)
      · intro h
        simp at h

theorem save_load_path_agreement_witness :
    savePathOf "snap" = "snap" ++ ".json" ∧ loadPathOf "snap" = "snap" ++ ".json" :=
  (save_load_path_agreement "snap").1 (by decide)

/-- C7 counterexample: for a name that already ends in `.json`, `save`
still appends the suffix while `load` uses the name as-is, so the two
resolve to different files. -/
theorem save_load_path_cex :
    savePathOf "a.json" = "a.json.json" ∧ loadPathOf "a.json" = "a.json" ∧
      savePathOf "a.json" ≠ loadPathOf "a.json" := by
  refine ⟨rfl, by decide, by decide⟩

/-- C3: over any sequence of public calls starting from construction
over a fresh directory — so in particular across loads of documents the
store previously saved — `metadata["created_at"]` stays exactly the
value stamped at construction. -/
theorem created_at_never_changes (autosaveFlag : Bool) (ops : List Op) :
    getA (runOps (initWorld autosaveFlag) ops).sm.metadata "created_at"
      = getA (initWorld autosaveFlag).sm.metadata "created_at" := by
  have h := inv_runOps ops (inv_initWorld autosaveFlag)
  rw [h.2.1.1]
  rfl

theorem created_at_never_changes_witness :
    getA (runOps (initWorld false)
        [Op.set "k" (Value.num 7), Op.save (some "s"), Op.load "s"]).sm.metadata
        "created_at"
      = getA (initWorld false).sm.metadata "created_at" :=
  created_at_never_changes false [Op.set "k" (Value.num 7), Op.save (some "s"), Op.load "s"]

/-- C6: over any sequence of public calls starting from construction
over a fresh directory, immediately after every operation the
`updated_at` stamp is at least the `created_at` stamp. -/
theorem updated_at_ge_created_at (autosaveFlag : Bool) (ops : List Op) :
    ∃ c u, getA (runOps (initWorld autosaveFlag) ops).sm.metadata "created_at"
             = some (.num c) ∧
           getA (runOps (initWorld autosaveFlag) ops).sm.metadata "updated_at"
             = some (.num u) ∧
           c ≤ u := by
  obtain ⟨-, ⟨hcr, u, hu, h1, -⟩, -⟩ := inv_runOps ops (inv_initWorld autosaveFlag)
  exact ⟨0, u, hcr, hu, h1⟩

theorem updated_at_ge_created_at_witness :
    ∃ c u, getA (runOps (initWorld true) [Op.clear, Op.backup]).sm.metadata "created_at"
             = some (.num c) ∧
           getA (runOps (initWorld true) [Op.clear, Op.backup]).sm.metadata "updated_at"
             = some (.num u) ∧
           c ≤ u :=
  updated_at_ge_created_at true [Op.clear, Op.backup]

/-- C9: `validate_state` is true exactly when every schema key that is
present in `entries` has a value of the expected kind; a schema key
absent from `entries` is vacuously valid regardless of its expected
kind (and the function is total — it returns a boolean, never raises). -/
theorem validate_state_spec (st : List (String × Value)) (schema : List (String × PyType)) :
    (validateState st schema = true ↔
       ∀ kt ∈ schema, ∀ v, getA st kt.1 = some v → isinst v kt.2 = true) ∧
    (∀ k ty, getA st k = none → validateState st [(k, ty)] = true) := by
  constructor
  · rw [validateState, List.all_eq_true]
    constructor
    · intro h kt hkt v hv
      have hp := h kt hkt
      rw [hv] at hp
      exact hp
    · intro h kt hkt
      cases hv : getA st kt.1 with
      | none => simp
      | some v => simpa using h kt hkt v hv
  · intro k ty hk
    simp [validateState, hk]

theorem validate_state_spec_witness :
    validateState [("name", Value.str "test")] [("count", PyType.int)] = true :=
  (validate_state_spec [("name", Value.str "test")] [("count", PyType.int)]).2
    "count" PyType.int rfl

/-- C10: when `load` fails — the document is missing or its contents do
not parse as JSON — the in-memory `state` and `metadata` (indeed the
whole world) are left exactly as they were. -/
theorem load_error_atomic (w : World) (n : String) (e : PyErr)
    (h : (load w n).2 = .error e) : (load w n).1 = w := by
  cases hg : getA w.fs (loadPathOf n) with
  | none => simp [load, hg]
  | some fd =>
      cases fd with
      | malformed => simp [load, hg]
      | json meta st => simp [load, hg] at h

theorem load_error_atomic_witness :
    (load { sm := initSM false 0, fs := [], clock := 2 } "missing").1
        = { sm := initSM false 0, fs := [], clock := 2 } ∧
      (load { sm := initSM false 0, fs := [], clock := 2 } "missing").2
        = .error (.fileNotFound "State file not found: missing.json") :=
  ⟨load_error_atomic { sm := initSM false 0, fs := [], clock := 2 } "missing"
     (.fileNotFound "State file not found: missing.json") rfl, rfl⟩

/-- C5: `set` always places the entry into the in-memory dict, for every
value including non-serializable ones; with autosave off it never
fails, and any failure it can raise is the serialization failure of the
autosave step (only possible with autosave on) — never a failure of the
in-memory update itself. -/
theorem set_always_succeeds_in_memory (w : World) (k : String) (v : Value) :
    getA ((set w k v).1).sm.state k = some v ∧
    (w.sm.autosave = false → (set w k v).2 = .ok ()) ∧
    (∀ e, (set w k v).2 = .error e → w.sm.autosave = true ∧ e = .serializationError) := by
  refine ⟨?_, ?_, ?_⟩
  · rw [set_fst_state]
    exact getA_setA_self _ _ _
  · intro ha
    rw [set_noAutosave w k v ha]
  · intro e he
    rcases set_snd_cases w k v with hok | ⟨herr, hauto⟩
    · rw [hok] at he
      exact absurd he (by simp)
    · rw [herr] at he
      exact ⟨hauto, (Except.error.inj he).symm⟩

theorem set_always_succeeds_in_memory_witness :
    getA ((set (initWorld false) "obj" (Value.pyobj 7)).1).sm.state "obj"
        = some (Value.pyobj 7) ∧
      (set (initWorld false) "obj" (Value.pyobj 7)).2 = .ok () :=
  ⟨(set_always_succeeds_in_memory (initWorld false) "obj" (Value.pyobj 7)).1,
   (set_always_succeeds_in_memory (initWorld false) "obj" (Value.pyobj 7)).2.1 rfl⟩

/-- C8 (amended): `delete(k)` on an absent key returns false, changes
nothing and never fails; on a present key it removes the entry and
refreshes `updated_at`, and returns true provided the autosave (if
enabled) succeeds — always when autosave is disabled, and whenever the
remaining document is JSON-serializable; the only other outcome is the
autosave's serialization failure, which propagates instead of the
`True` return although the key is still removed. -/
theorem delete_spec (w : World) (k : String) (hnd : DictRep w.sm.state) :
    (getA w.sm.state k = none → delete w k = (w, .ok false)) ∧
    ((delete w k).2 = .ok false ↔ getA w.sm.state k = none) ∧
    (∀ v, getA w.sm.state k = some v →
       getA ((delete w k).1).sm.state k = none ∧
       getA ((delete w k).1).sm.metadata "updated_at" = some (.num w.clock) ∧
       (w.sm.autosave = false → (delete w k).2 = .ok true) ∧
       (serializableVals w.sm.metadata = true →
        serializableVals (eraseA w.sm.state k) = true →
        (delete w k).2 = .ok true) ∧
       ((delete w k).2 = .ok true ∨ (delete w k).2 = .error .serializationError)) := by
  cases hk : getA w.sm.state k with
  | none =>
      have hdel : delete w k = (w, .ok false) := by
        unfold delete
        rw [hk]
        rfl
      refine ⟨fun _ => hdel, ?_, fun v hv => Option.noConfusion hv⟩
      constructor
      · intro _
        rfl
      · intro _
        rw [hdel]
  | some v₀ =>
      have hsome : (getA w.sm.state k).isSome = true := by rw [hk]; rfl
      have hdel : delete w k =
          ((autosaveTail (stampUpdated (withState w (eraseA w.sm.state k)))).1,
           match (autosaveTail (stampUpdated (withState w (eraseA w.sm.state k)))).2 with
           | .ok _ => .ok true
           | .error e => .error e) := by
        unfold delete
        rw [hsome]
        rfl
      refine ⟨fun h => Option.noConfusion h, ?_, fun v hv => ?_⟩
      · constructor
        · intro hfalse
          rw [hdel] at hfalse
          simp only at hfalse
          rcases autosaveTail_snd (stampUpdated (withState w (eraseA w.sm.state k)))
            with hok | ⟨herr, -⟩
          · rw [hok] at hfalse
            simp at hfalse
          · rw [herr] at hfalse
            simp at hfalse
        · intro habs
          exact Option.noConfusion habs
      · refine ⟨?_, ?_, ?_, ?_, ?_⟩
        · rw [hdel]
          simp only
          rw [autosaveTail_sm]
          exact getA_eraseA_self k hnd
        · rw [hdel]
          simp only
          rw [autosaveTail_sm]
          exact getA_setA_self _ _ _
        · intro ha
          rw [hdel]
          simp only
          rw [autosaveTail_noAutosave (stampUpdated (withState w (eraseA w.sm.state k))) ha]
        · intro hm hs
          have hok : (autosaveTail (stampUpdated (withState w (eraseA w.sm.state k)))).2
              = .ok () := by
            refine autosaveTail_snd_ok _ ?_
            show (serializableVals (setA w.sm.metadata "updated_at" (Value.num w.clock))
                  && serializableVals (eraseA w.sm.state k)) = true
            rw [serializable_setA w.sm.metadata "updated_at" (Value.num w.clock) hm rfl, hs]
            rfl
          rw [hdel]
          simp only
          rw [hok]
        · rw [hdel]
          simp only
          rcases autosaveTail_snd (stampUpdated (withState w (eraseA w.sm.state k)))
            with hok | ⟨herr, -⟩
          · exact Or.inl (by rw [hok])
          · exact Or.inr (by rw [herr])

theorem delete_spec_witness :
    delete { sm := ⟨false, [("key1", Value.str "v")], (initSM false 0).metadata⟩,
             fs := [], clock := 2 } "missing"
      = ({ sm := ⟨false, [("key1", Value.str "v")], (initSM false 0).metadata⟩,
           fs := [], clock := 2 }, .ok false) ∧
    (delete { sm := ⟨true, [("key1", Value.str "v")], (initSM true 0).metadata⟩,
              fs := [], clock := 2 } "key1").2 = .ok true :=
  ⟨(delete_spec { sm := ⟨false, [("key1", Value.str "v")], (initSM false 0).metadata⟩,
                  fs := [], clock := 2 } "missing" (by simp [DictRep])).1 rfl,
   ((delete_spec { sm := ⟨true, [("key1", Value.str "v")], (initSM true 0).metadata⟩,
                   fs := [], clock := 2 } "key1" (by simp [DictRep])).2.2
      (Value.str "v") rfl).2.2.2.1 rfl rfl⟩

/-- C1 (amended): for JSON-serializable entries `E` and a snapshot name
that does not already end in `.json`, `save(name)` followed by
`load(name)` on a fresh store over the same directory succeeds and
restores `entries = E` and `metadata["version"] = V` from disk, while
`metadata["updated_at"]` is re-stamped to the clock at the load call
(not the saved stamp). -/
theorem save_load_roundtrip
    (E M : List (String × Value)) (V : Value) (a b : Bool)
    (fs : List (String × FileData)) (c c₂ : Nat) (name : String)
    (hname : endsWithStr name ".json" = false)
    (hM : serializableVals M = true) (hE : serializableVals E = true)
    (hV : getA M "version" = some V) :
    (save { sm := ⟨a, E, M⟩, fs := fs, clock := c } (some name)).2
        = .ok (name ++ ".json") ∧
    (load { sm := initSM b c₂,
            fs := ((save { sm := ⟨a, E, M⟩, fs := fs, clock := c } (some name)).1).fs,
            clock := c₂ + 2 } name).2 = .ok () ∧
    ((load { sm := initSM b c₂,
             fs := ((save { sm := ⟨a, E, M⟩, fs := fs, clock := c } (some name)).1).fs,
             clock := c₂ + 2 } name).1).sm.state = E ∧
    getA ((load { sm := initSM b c₂,
                  fs := ((save { sm := ⟨a, E, M⟩, fs := fs, clock := c } (some name)).1).fs,
                  clock := c₂ + 2 } name).1).sm.metadata "version" = some V ∧
    getA ((load { sm := initSM b c₂,
                  fs := ((save { sm := ⟨a, E, M⟩, fs := fs, clock := c } (some name)).1).fs,
                  clock := c₂ + 2 } name).1).sm.metadata "updated_at"
        = some (.num (c₂ + 2)) := by
  have hcond : (serializableVals M && serializableVals E) = true := by
    rw [hM, hE]
    rfl
  have hsave : save { sm := ⟨a, E, M⟩, fs := fs, clock := c } (some name)
      = ({ sm := ⟨a, E, M⟩,
           fs := setA fs (savePathOf name) (.json M E), clock := c },
         .ok (savePathOf name)) :=
    saveAs_ok { sm := ⟨a, E, M⟩, fs := fs, clock := c } name hcond
  have hpath : loadPathOf name = name ++ ".json" := by simp [loadPathOf, hname]
  have hfound : getA (setA fs (savePathOf name) (.json M E)) (loadPathOf name)
      = some (.json M E) := by
    rw [hpath]
    exact getA_setA_self fs (name ++ ".json") (.json M E)
  have hload := load_found
    { sm := initSM b c₂, fs := setA fs (savePathOf name) (.json M E), clock := c₂ + 2 }
    name M E hfound
  rw [hsave]
  refine ⟨rfl, ?_, ?_, ?_, ?_⟩
  · rw [hload]
  · rw [hload]
  · show getA ((load _ name).1).sm.metadata "version" = some V
    rw [hload]
    show getA (setA M "updated_at" (.num (c₂ + 2))) "version" = some V
    rw [getA_setA_ne _ _ _ _ (by decide)]
    exact hV
  · show getA ((load _ name).1).sm.metadata "updated_at" = some (.num (c₂ + 2))
    rw [hload]
    exact getA_setA_self _ _ _

theorem save_load_roundtrip_witness :
    ((load { sm := initSM false 10,
             fs := ((save { sm := ⟨false, [("count", Value.num 42)],
                                   (initSM false 0).metadata⟩,
                            fs := [], clock := 2 } (some "snap1")).1).fs,
             clock := 12 } "snap1").1).sm.state = [("count", Value.num 42)] ∧
    getA ((load { sm := initSM false 10,
                  fs := ((save { sm := ⟨false, [("count", Value.num 42)],
                                        (initSM false 0).metadata⟩,
                                 fs := [], clock := 2 } (some "snap1")).1).fs,
                  clock := 12 } "snap1").1).sm.metadata "version"
        = some (Value.str "1.0") :=
  ⟨(save_load_roundtrip [("count", Value.num 42)] (initSM false 0).metadata
      (Value.str "1.0") false false [] 2 10 "snap1" (by decide) rfl rfl rfl).2.2.1,
   (save_load_roundtrip [("count", Value.num 42)] (initSM false 0).metadata
      (Value.str "1.0") false false [] 2 10 "snap1" (by decide) rfl rfl rfl).2.2.2.1⟩

/-- C1 counterexample: with a snapshot name that already ends in
`.json`, `save` writes `x.json.json` while `load` looks for `x.json`,
so the round trip fails and the fresh store's entries stay empty. -/
theorem save_load_roundtrip_cex :
    (load { sm := initSM false 10,
            fs := ((save { sm := ⟨false, [("k", Value.num 1)], (initSM false 0).metadata⟩,
                           fs := [], clock := 5 } (some "x.json")).1).fs,
            clock := 12 } "x.json").2
        = .error (.fileNotFound "State file not found: x.json") ∧
    ((load { sm := initSM false 10,
             fs := ((save { sm := ⟨false, [("k", Value.num 1)], (initSM false 0).metadata⟩,
                            fs := [], clock := 5 } (some "x.json")).1).fs,
             clock := 12 } "x.json").1).sm.state ≠ [("k", Value.num 1)] :=
  ⟨rfl, fun h => List.noConfusion h⟩

/-- C8 counterexample: a present-key delete whose autosave hits a
non-serializable sibling value raises instead of returning true, so
`delete(k)` does not return true whenever `k` was present. -/
theorem delete_autosave_failure_cex :
    getA ({ sm := ⟨true, [("k", Value.str "x"), ("j", Value.pyobj 0)],
                   (initSM true 0).metadata⟩,
            fs := [], clock := 2 } : World).sm.state "k" = some (Value.str "x") ∧
      (delete { sm := ⟨true, [("k", Value.str "x"), ("j", Value.pyobj 0)],
                       (initSM true 0).metadata⟩,
                fs := [], clock := 2 } "k").2 = .error .serializationError :=
  ⟨rfl, rfl⟩

/-- C4 (amended): on every path a `run` can take — `process` succeeds,
`process` raises, or a hook itself raises — the on-stop hook is invoked
and `last_stop` is written into the in-memory store.  `is_running` is
false after `run` terminates whenever the hooks' autosaves cannot fail,
i.e. when the agent's world is hook-safe (autosave disabled, or state
and metadata JSON-serializable — the constructor's default) and
`process` preserves hook-safety; in those runs the stop hook completes.
When the stop hook's autosave does fail (a non-serializable value with
autosave on), `run` skips `is_running = False` and the flag remains
true: see the counterexample. -/
theorem run_stop_guarantee (process : World → World × Except PyErr Value)
    (ag : AgentState) :
    (∃ t, getA (((runAgent process ag).1).world).sm.state "last_stop"
        = some (Value.num t)) ∧
    ((∀ w, HookSafe w → HookSafe ((process w).1)) → HookSafe ag.world →
       ((runAgent process ag).1).is_running = false) := by
  constructor
  · unfold runAgent
    split
    · exact runFinally_last_stop _
    · split
      · exact runFinally_last_stop _
      · split
        · exact runFinally_last_stop _
        · exact runFinally_last_stop _
  · intro hpres hsafe
    have h₁ := hookSet_safe ag.world "last_start" hsafe
    rcases hst : hookSet ag.world "last_start" with ⟨w₁, r₁⟩
    rw [hst] at h₁
    simp only at h₁
    obtain ⟨hr₁, hw₁⟩ := h₁
    subst hr₁
    have hw₂ := hpres w₁ hw₁
    rcases hpr : process w₁ with ⟨w₂, r₂⟩
    rw [hpr] at hw₂
    simp only at hw₂
    cases r₂ with
    | ok result =>
        have h₃ := hookSet_safe w₂ "last_success" hw₂
        rcases hsc : hookSet w₂ "last_success" with ⟨w₃, r₃⟩
        rw [hsc] at h₃
        simp only at h₃
        obtain ⟨hr₃, hw₃⟩ := h₃
        subst hr₃
        have hrun : runAgent process ag = runFinally (w₃, .ok result) := by
          unfold runAgent
          simp only [hst, hpr, hsc]
        rw [hrun, runFinally_safe (w₃, .ok result) hw₃]
    | error e =>
        have hrun : runAgent process ag = runFinally (handleErr w₂ e) := by
          unfold runAgent
          simp only [hst, hpr]
        have hsafeE : HookSafe ((onError w₂ e).1) := (onError_safe w₂ e hw₂).2
        rw [hrun, handleErr_safe w₂ e hw₂,
          runFinally_safe ((onError w₂ e).1, .error e) hsafeE]

theorem run_stop_guarantee_witness :
    (∃ t, getA (((runAgent (fun w => (w, .ok Value.null))
                    ⟨false, initWorld true⟩).1).world).sm.state "last_stop"
        = some (Value.num t)) ∧
    ((runAgent (fun w => (w, .ok Value.null)) ⟨false, initWorld true⟩).1).is_running
        = false :=
  ⟨(run_stop_guarantee (fun w => (w, .ok Value.null)) ⟨false, initWorld true⟩).1,
   (run_stop_guarantee (fun w => (w, .ok Value.null)) ⟨false, initWorld true⟩).2
     (fun _ h => h) (Or.inr ⟨rfl, rfl⟩)⟩

/-- C4 counterexample: a store holding a non-serializable value with
autosave enabled makes every hook's autosave raise; `last_stop` is
still written in memory (the on-stop hook does run), but its autosave
raises too, so `run` terminates with `is_running` still true and the
serialization failure as its result. -/
theorem run_stop_stuck_cex :
    ((runAgent (fun w => (w, .ok Value.null))
        ⟨false, { sm := ⟨true, [("bad", Value.pyobj 0)], (initSM true 0).metadata⟩,
                  fs := [], clock := 2 }⟩).1).is_running = true ∧
    (runAgent (fun w => (w, .ok Value.null))
        ⟨false, { sm := ⟨true, [("bad", Value.pyobj 0)], (initSM true 0).metadata⟩,
                  fs := [], clock := 2 }⟩).2 = .error .serializationError ∧
    getA (((runAgent (fun w => (w, .ok Value.null))
        ⟨false, { sm := ⟨true, [("bad", Value.pyobj 0)], (initSM true 0).metadata⟩,
                  fs := [], clock := 2 }⟩).1).world).sm.state "last_stop"
      = some (Value.num 8) :=
  ⟨rfl, rfl, rfl⟩

/-- C2 (amended): for an agent whose `process` raises, provided the
hooks' autosaves cannot fail — the agent's world is hook-safe (autosave
disabled, or state and metadata JSON-serializable) and `process`
preserves hook-safety — `run` re-raises the very same failure;
afterwards `last_error` holds a record whose message is exactly the
original failure text, `last_stop` is set, and `is_running` is false.
When a hook's autosave fails instead (a non-serializable value with
autosave on), `run` raises the serialization failure in place of the
original one and `is_running` stays true, though `last_error` (with the
original text) and `last_stop` are still written in memory: see the
counterexample. -/
theorem run_error_spec (process : World → World × Except PyErr Value)
    (ag : AgentState) (e : PyErr)
    (hsafe : HookSafe ag.world)
    (hpres : ∀ w, HookSafe w → HookSafe ((process w).1))
    (herr : ∀ w, (process w).2 = .error e) :
    (runAgent process ag).2 = .error e ∧
    (∃ t, getA (((runAgent process ag).1).world).sm.state "last_error"
        = some (.dict [("timestamp", .num t), ("error", .str (pyStr e)),
                       ("type", .str (pyTyName e))])) ∧
    (∃ t, getA (((runAgent process ag).1).world).sm.state "last_stop"
        = some (Value.num t)) ∧
    ((runAgent process ag).1).is_running = false := by
  have h₁ := hookSet_safe ag.world "last_start" hsafe
  rcases hst : hookSet ag.world "last_start" with ⟨w₁, r₁⟩
  rw [hst] at h₁
  simp only at h₁
  obtain ⟨hr₁, hw₁⟩ := h₁
  subst hr₁
  have hw₂ := hpres w₁ hw₁
  have hpe := herr w₁
  rcases hpr : process w₁ with ⟨w₂, r₂⟩
  rw [hpr] at hw₂ hpe
  simp only at hw₂ hpe
  subst hpe
  have hrun : runAgent process ag = runFinally (handleErr w₂ e) := by
    unfold runAgent
    simp only [hst, hpr]
  have hsafeE : HookSafe ((onError w₂ e).1) := (onError_safe w₂ e hw₂).2
  rw [hrun, handleErr_safe w₂ e hw₂,
    runFinally_safe ((onError w₂ e).1, .error e) hsafeE]
  refine ⟨rfl, ⟨w₂.clock, ?_⟩,
    ⟨((onError w₂ e).1).clock, hookSet_state (onError w₂ e).1 "last_stop"⟩, rfl⟩
  rw [hookSet_state_ne (onError w₂ e).1 "last_stop" "last_error" (by decide)]
  exact onError_state w₂ e

theorem run_error_spec_witness :
    (runAgent (fun w => (w, .error (.userError "ValueError" "Test error")))
        ⟨false, initWorld true⟩).2 = .error (.userError "ValueError" "Test error") ∧
    ((runAgent (fun w => (w, .error (.userError "ValueError" "Test error")))
        ⟨false, initWorld true⟩).1).is_running = false :=
  ⟨(run_error_spec (fun w => (w, .error (.userError "ValueError" "Test error")))
      ⟨false, initWorld true⟩ (.userError "ValueError" "Test error")
      (Or.inr ⟨rfl, rfl⟩) (fun _ h => h) (fun _ => rfl)).1,
   (run_error_spec (fun w => (w, .error (.userError "ValueError" "Test error")))
      ⟨false, initWorld true⟩ (.userError "ValueError" "Test error")
      (Or.inr ⟨rfl, rfl⟩) (fun _ h => h) (fun _ => rfl)).2.2.2⟩

/-- C2 counterexample: a `process` that stores a non-serializable value
and then raises `ValueError("boom")` makes the on-error hook's autosave
raise a serialization failure, which replaces the original failure and
also escapes the stop hook — `run` raises the wrong exception and
leaves `is_running` true, even though `last_error` (with the original
"boom" text) and `last_stop` were still written in memory. -/
theorem run_error_autosave_cex :
    (runAgent
        (fun w => ({ w with sm := { w.sm with
                                      state := setA w.sm.state "bad" (Value.pyobj 0) } },
                    .error (.userError "ValueError" "boom")))
        ⟨false, initWorld true⟩).2 = .error .serializationError ∧
    ((runAgent
        (fun w => ({ w with sm := { w.sm with
                                      state := setA w.sm.state "bad" (Value.pyobj 0) } },
                    .error (.userError "ValueError" "boom")))
        ⟨false, initWorld true⟩).1).is_running = true ∧
    getA (((runAgent
        (fun w => ({ w with sm := { w.sm with
                                      state := setA w.sm.state "bad" (Value.pyobj 0) } },
                    .error (.userError "ValueError" "boom")))
        ⟨false, initWorld true⟩).1).world).sm.state "last_error"
      = some (.dict [("timestamp", Value.num 5), ("error", Value.str "boom"),
                     ("type", Value.str "ValueError")]) ∧
    getA (((runAgent
        (fun w => ({ w with sm := { w.sm with
                                      state := setA w.sm.state "bad" (Value.pyobj 0) } },
                    .error (.userError "ValueError" "boom")))
        ⟨false, initWorld true⟩).1).world).sm.state "last_stop"
      = some (Value.num 8) :=
  ⟨rfl, rfl, rfl, rfl⟩

end AgentSpec
